import Mathlib

/-!
Verification of the cryptographic core of a local secrets manager
(pkg/crypto/crypto.go): authenticated-encryption envelopes
(`Encrypt`/`Decrypt`), passphrase key derivation (`Pbkdf2`) and the
random byte source (`RandBytes`).

Byte sequences are modelled as `List Nat`.  The external cryptographic
primitives (the AES block cipher with its GCM mode, the SHA-256 hash and
the `math/rand` generator) are not part of the repository's sources;
they are modelled from their specified contracts, each such definition
carrying a doc comment starting with `Modelled from the spec:`.  All
code that *is* in the repository (`Encrypt`, `Decrypt`, `Pbkdf2`,
`RandBytes`) is translated statement by statement.
-/

namespace Krypt

/-- Nonce size of the GCM construction: `cipher.NewGCM` uses 12-byte
nonces (`gcmStandardNonceSize`). -/
def NonceSize : Nat := 12

/-- Modelled from the spec: the key-length acceptance test of the AES
block cipher constructor `aes.NewCipher`, which accepts exactly the AES
key sizes 16, 24 and 32 bytes and returns a `KeySizeError` otherwise. -/
def aesKeyOk (n : Nat) : Bool :=
  n == 16 || n == 24 || n == 32

/-- Modelled from the spec: the AEAD seal transform (`aesgcm.Seal` with
no associated data).  The model is idealized: the output is the
plaintext followed by an authentication tag that determines the key,
the nonce and the plaintext, so that verification succeeds exactly on
envelopes produced by this very transform — the absolute authentication
guarantee the specification ascribes to the construction.  The model
captures determinism, framing and authentication, not confidentiality. -/
def aeadSeal (key nonce p : List Nat) : List Nat :=
  p ++ (key ++ [key.length] ++ nonce ++ [nonce.length] ++ p ++ [p.length])

/-- Modelled from the spec: the AEAD open/verify transform
(`aesgcm.Open` with no associated data).  It recovers the candidate
plaintext from the tag framing and returns it only when the whole input
is byte-for-byte the seal of that plaintext under the given key and
nonce; otherwise it fails. -/
def aeadOpen (key nonce ct : List Nat) : Option (List Nat) :=
  match ct.getLast? with
  | none => none
  | some len =>
    let body := ct.dropLast
    if len ≤ body.length then
      let p := body.drop (body.length - len)
      if ct = aeadSeal key nonce p then some p else none
    else none

/-- Modelled from the spec: one step of the statistical generator behind
`math/rand` (a linear-congruential update on the generator state). -/
def randStep (g : Nat) : Nat :=
  (g * 1103515245 + 12345) % 2 ^ 31

/-- Modelled from the spec: the byte extracted from the generator state
by `rand.Read`. -/
def randByte (g : Nat) : Nat :=
  g / 65536 % 256

/-- Translation of `RandBytes` (crypto.go): allocates a buffer of `n`
bytes and fills every position from the process-wide generator.  The
generator state, global in Go, is passed and returned explicitly. -/
def RandBytes : Nat → Nat → List Nat × Nat
  | 0, g => ([], g)
  | n + 1, g =>
    let g' := randStep g
    let rest := RandBytes n g'
    (randByte g' :: rest.1, rest.2)

/-- Error taxonomy of the envelope operations: `keySize` is the
`aes.KeySizeError` (carrying the offending length), `noNonce` is
`ErrNoNonce` ("ciphertext smaller than nonce"), `authFailure` is the
GCM authentication failure. -/
inductive CryptError where
  | keySize : Nat → CryptError
  | noNonce : CryptError
  | authFailure : CryptError
deriving DecidableEq

/-- Translation of `Encrypt` (crypto.go): build the AES cipher (failing
on an invalid key length), wrap it in GCM (never fails for AES, whose
block size is always 16), draw a fresh random nonce of `NonceSize`
bytes, and return the nonce with the sealed ciphertext appended to it.
The random-generator state is passed and returned explicitly. -/
def Encrypt (src key : List Nat) (g : Nat) :
    Except CryptError (List Nat) × Nat :=
  if aesKeyOk key.length then
    let nonce := (RandBytes NonceSize g).1
    (Except.ok (nonce ++ aeadSeal key nonce src), (RandBytes NonceSize g).2)
  else
    (Except.error (CryptError.keySize key.length), g)

/-- Translation of `Decrypt` (crypto.go): build the AES cipher (failing
on an invalid key length), wrap it in GCM, reject inputs shorter than
the nonce, split the input at the nonce boundary and verify the
remainder. -/
def Decrypt (ct key : List Nat) : Except CryptError (List Nat) :=
  if aesKeyOk key.length then
    if ct.length < NonceSize then
      Except.error CryptError.noNonce
    else
      match aeadOpen key (ct.take NonceSize) (ct.drop NonceSize) with
      | some p => Except.ok p
      | none => Except.error CryptError.authFailure
  else
    Except.error (CryptError.keySize key.length)

/-- Modelled from the spec: a 256-bit cryptographic hash function
(SHA-256 stand-in) — a fixed function from byte sequences to 32-byte
digests. -/
def hash256 (msg : List Nat) : List Nat :=
  (List.range 32).map fun i =>
    (msg.foldl (fun acc b => (acc * 131 + b + 1) % 2 ^ 64) (i + 17)) % 256

/-- Pointwise xor of two byte sequences, as used by the PBKDF2 block
accumulation. -/
def xorBytes (a b : List Nat) : List Nat :=
  List.zipWith (fun x y => x ^^^ y) a b

/-- Modelled from the spec: the HMAC construction over `hash256` with
the 64-byte block size of SHA-256, the PRF used by PBKDF2. -/
def hmac256 (key msg : List Nat) : List Nat :=
  let k0 := if key.length > 64 then hash256 key else key
  let k := k0 ++ List.replicate (64 - k0.length) 0
  let inner := k.map fun b => b ^^^ 54
  let outer := k.map fun b => b ^^^ 92
  hash256 (outer ++ hash256 (inner ++ msg))

/-- Big-endian 4-byte encoding of a block index, as PBKDF2 appends to
the salt. -/
def intBE4 (n : Nat) : List Nat :=
  [n / 2 ^ 24 % 256, n / 2 ^ 16 % 256, n / 2 ^ 8 % 256, n % 256]

/-- Modelled from the spec: the iterated tail of a PBKDF2 block — after
`U1`, each remaining round replaces `U` by `PRF(password, U)` and xors
it into the accumulator `T`. -/
def pbkdf2Rounds (pw : List Nat) : Nat → List Nat → List Nat → List Nat
  | 0, _, t => t
  | n + 1, u, t =>
    let u' := hmac256 pw u
    pbkdf2Rounds pw n u' (xorBytes t u')

/-- Modelled from the spec: the PBKDF2 key-derivation function — for
each block index the PRF chain of `iter` applications starting from
`salt ++ INT(i)`, blocks concatenated and truncated to `klen` bytes. -/
def pbkdf2Key (pw salt : List Nat) (iter klen : Nat) : List Nat :=
  let hashLen := 32
  let numBlocks := (klen + hashLen - 1) / hashLen
  (((List.range numBlocks).map fun i =>
    let u1 := hmac256 pw (salt ++ intBE4 (i + 1))
    pbkdf2Rounds pw (iter - 1) u1 u1).flatten).take klen

/-- Translation of `Pbkdf2` (crypto.go): PBKDF2 with 4096 iterations,
a 32-byte derived key and SHA-256 as the hash algorithm. -/
def Pbkdf2 (pw salt : List Nat) : List Nat :=
  pbkdf2Key pw salt 4096 32


/-- Helper: `RandBytes` always returns exactly as many bytes as requested. -/
theorem length_randBytes (n g : Nat) : ((RandBytes n g).1).length = n := by
  induction n generalizing g with
  | zero => rfl
  | succ n ih => simp [RandBytes, ih]

/-- Helper: the seal output written with its final length byte split off. -/
theorem aeadSeal_concat (key nonce p : List Nat) :
    aeadSeal key nonce p
      = (p ++ key ++ [key.length] ++ nonce ++ [nonce.length] ++ p) ++ [p.length] := by
  simp [aeadSeal]

/-- Helper: length of the sealed output. -/
theorem length_aeadSeal (key nonce p : List Nat) :
    (aeadSeal key nonce p).length = p.length + key.length + nonce.length + p.length + 3 := by
  simp [aeadSeal]; omega

/-- Helper: evaluation of the verify transform on a nonempty input. -/
theorem aeadOpen_concat (key nonce xs : List Nat) (n : Nat) :
    aeadOpen key nonce (xs ++ [n]) =
      if n ≤ xs.length then
        if xs ++ [n] = aeadSeal key nonce (xs.drop (xs.length - n))
        then some (xs.drop (xs.length - n)) else none
      else none := by
  unfold aeadOpen
  rw [List.getLast?_concat, List.dropLast_concat]

/-- Helper: the verify transform accepts the seal of any plaintext and returns that plaintext (AEAD correctness). -/
theorem aeadOpen_seal (key nonce p : List Nat) :
    aeadOpen key nonce (aeadSeal key nonce p) = some p := by
  have hdrop : (p ++ key ++ [key.length] ++ nonce ++ [nonce.length] ++ p).drop
      ((p ++ key ++ [key.length] ++ nonce ++ [nonce.length] ++ p).length - p.length) = p := by
    have h1 : (p ++ key ++ [key.length] ++ nonce ++ [nonce.length] ++ p).length - p.length
        = (p ++ key ++ [key.length] ++ nonce ++ [nonce.length]).length := by
      simp; omega
    rw [h1]
    have h2 := List.drop_left (p ++ key ++ [key.length] ++ nonce ++ [nonce.length]) p
    exact h2
  rw [aeadSeal_concat, aeadOpen_concat, hdrop]
  rw [if_pos (by simp), if_pos (aeadSeal_concat key nonce p).symm]

/-- Helper: the verify transform succeeds only on byte sequences that are exactly the seal of the returned plaintext under the given key and nonce (AEAD authentication). -/
theorem aeadOpen_sound {key nonce ct p : List Nat}
    (h : aeadOpen key nonce ct = some p) : ct = aeadSeal key nonce p := by
  rcases List.eq_nil_or_concat ct with rfl | ⟨xs, n, rfl⟩
  · exact absurd h (by simp [aeadOpen])
  · rw [List.concat_eq_append] at h ⊢
    rw [aeadOpen_concat] at h
    by_cases h1 : n ≤ xs.length
    · rw [if_pos h1] at h
      by_cases h2 : xs ++ [n] = aeadSeal key nonce (xs.drop (xs.length - n))
      · rw [if_pos h2] at h
        cases h
        exact h2
      · rw [if_neg h2] at h
        exact absurd h (by simp)
    · rw [if_neg h1] at h
      exact absurd h (by simp)

/-- Helper: on a valid key, `Decrypt` of `nonce ++ body` with a nonce of the protocol size reduces to verification of `body` under that nonce. -/
theorem decrypt_split (key nonce body : List Nat)
    (hk : aesKeyOk key.length = true) (hn : nonce.length = NonceSize) :
    Decrypt (nonce ++ body) key =
      match aeadOpen key nonce body with
      | some p => Except.ok p
      | none => Except.error CryptError.authFailure := by
  have h1 : ¬ (nonce ++ body).length < NonceSize := by
    simp [hn]
  have h2 : (nonce ++ body).take NonceSize = nonce := by
    rw [← hn]
    exact List.take_left nonce body
  have h3 : (nonce ++ body).drop NonceSize = body := by
    rw [← hn]
    exact List.drop_left nonce body
  unfold Decrypt
  rw [if_pos hk, if_neg h1, h2, h3]

/-- C1: for every key of a length accepted by the cipher and every
plaintext (including the empty sequence), decrypting the output of
`Encrypt` with the same key returns exactly the original plaintext. -/
theorem encrypt_decrypt_roundtrip (key p : List Nat) (g : Nat)
    (hk : aesKeyOk key.length = true) :
    Except.bind (Encrypt p key g).1 (fun e => Decrypt e key) = Except.ok p := by
  have henc : (Encrypt p key g).1
      = Except.ok ((RandBytes NonceSize g).1
          ++ aeadSeal key (RandBytes NonceSize g).1 p) := by
    unfold Encrypt
    rw [if_pos hk]
  rw [henc]
  show Decrypt ((RandBytes NonceSize g).1 ++ aeadSeal key (RandBytes NonceSize g).1 p) key
      = Except.ok p
  rw [decrypt_split key _ _ hk (length_randBytes NonceSize g), aeadOpen_seal]

/-- Witness for C1 at a concrete 32-byte key, plaintext and generator state. -/
theorem encrypt_decrypt_roundtrip_witness :
    aesKeyOk (List.replicate 32 0).length = true
    ∧ Except.bind (Encrypt [104, 105] (List.replicate 32 0) 7).1
        (fun e => Decrypt e (List.replicate 32 0)) = Except.ok [104, 105] :=
  ⟨by decide, encrypt_decrypt_roundtrip (List.replicate 32 0) [104, 105] 7 (by decide)⟩

/-- C2: for every valid-length key, any input of at least `NonceSize`
bytes that is not byte-for-byte an envelope produced by the seal
transform under that same key (wrong key, any flipped bit in the body,
or arbitrary non-envelope bytes) makes `Decrypt` fail with the
authentication error; the `Except` result carries no plaintext bytes on
failure. -/
theorem decrypt_rejects_nonenvelope (key ct : List Nat)
    (hk : aesKeyOk key.length = true) (hlen : NonceSize ≤ ct.length)
    (hne : ∀ p, ct ≠ ct.take NonceSize ++ aeadSeal key (ct.take NonceSize) p) :
    Decrypt ct key = Except.error CryptError.authFailure := by
  have hsplit : ct = ct.take NonceSize ++ ct.drop NonceSize :=
    (List.take_append_drop NonceSize ct).symm
  have hn : (ct.take NonceSize).length = NonceSize := by
    rw [List.length_take]
    omega
  have hd := decrypt_split key (ct.take NonceSize) (ct.drop NonceSize) hk hn
  rw [← hsplit] at hd
  rw [hd]
  cases ho : aeadOpen key (ct.take NonceSize) (ct.drop NonceSize) with
  | none => rfl
  | some p =>
    exfalso
    apply hne p
    conv_lhs => rw [hsplit]
    rw [aeadOpen_sound ho]

/-- Witness for C2 at a concrete key and a 12-byte non-envelope input. -/
theorem decrypt_rejects_nonenvelope_witness :
    aesKeyOk (List.replicate 32 0).length = true
    ∧ NonceSize ≤ (List.replicate 12 0).length
    ∧ Decrypt (List.replicate 12 0) (List.replicate 32 0)
        = Except.error CryptError.authFailure :=
  ⟨by decide, by decide,
    decrypt_rejects_nonenvelope (List.replicate 32 0) (List.replicate 12 0)
      (by decide) (by decide)
      (fun p h => by
        have hl := congrArg List.length h
        rw [List.length_append, length_aeadSeal] at hl
        simp [NonceSize] at hl)⟩

/-- Counterexample to C3 as stated: a 16-byte key does not have length
32, yet `Encrypt` does not return the key-size error — it succeeds. -/
theorem keySize_claim_counterexample :
    (List.replicate 16 0).length ≠ 32
    ∧ (Encrypt [] (List.replicate 16 0) 0).1 ≠ Except.error (CryptError.keySize 16)
    ∧ (Encrypt [] (List.replicate 16 0) 0).1
        = Except.ok ((RandBytes NonceSize 0).1
            ++ aeadSeal (List.replicate 16 0) (RandBytes NonceSize 0).1 []) := by
  refine ⟨by decide, ?_, by rfl⟩
  intro h
  rw [(by rfl : (Encrypt [] (List.replicate 16 0) 0).1
      = Except.ok ((RandBytes NonceSize 0).1
          ++ aeadSeal (List.replicate 16 0) (RandBytes NonceSize 0).1 []))] at h
  exact Except.noConfusion h

/-- Helper: both operations return the key-size error exactly when the AES key-length test fails. -/
theorem keySize_iff_aux (key src ct : List Nat) (g : Nat) :
    ((Encrypt src key g).1 = Except.error (CryptError.keySize key.length)
      ↔ aesKeyOk key.length = false)
    ∧ (Decrypt ct key = Except.error (CryptError.keySize key.length)
      ↔ aesKeyOk key.length = false) := by
  by_cases hk : aesKeyOk key.length = true
  · constructor
    · rw [hk]
      unfold Encrypt
      rw [if_pos hk]
      simp
    · rw [hk]
      unfold Decrypt
      rw [if_pos hk]
      constructor
      · intro h
        split at h
        · exact absurd (Except.error.inj h) (by simp)
        · split at h
          · exact Except.noConfusion h
          · exact absurd (Except.error.inj h) (by simp)
      · intro h
        exact absurd h (by simp)
  · rw [Bool.not_eq_true] at hk
    constructor
    · rw [hk]
      unfold Encrypt
      rw [if_neg (by rw [hk]; exact Bool.false_ne_true)]
      simp
    · rw [hk]
      unfold Decrypt
      rw [if_neg (by rw [hk]; exact Bool.false_ne_true)]
      simp

/-- C3 (amended): `Encrypt` and `Decrypt` fail with the key-size error
exactly when the key length is rejected by the AES key-length test
(`aesKeyOk`, which accepts 16, 24 and 32 bytes); every key of an
accepted length — in particular every 32-byte key — passes the check. -/
theorem keySize_error_iff (key src ct : List Nat) (g : Nat) :
    ((Encrypt src key g).1 = Except.error (CryptError.keySize key.length)
      ↔ aesKeyOk key.length = false)
    ∧ (Decrypt ct key = Except.error (CryptError.keySize key.length)
      ↔ aesKeyOk key.length = false) :=
  keySize_iff_aux key src ct g

/-- C4: for every key of valid length and every input shorter than
`NonceSize` (12) bytes, including the empty sequence, `Decrypt` fails
with `ErrNoNonce` and returns no plaintext. -/
theorem decrypt_short_input (key ct : List Nat)
    (hk : aesKeyOk key.length = true) (hlen : ct.length < NonceSize) :
    Decrypt ct key = Except.error CryptError.noNonce := by
  unfold Decrypt
  rw [if_pos hk, if_pos hlen]

/-- Witness for C4 at a concrete 32-byte key and the empty input. -/
theorem decrypt_short_input_witness :
    aesKeyOk (List.replicate 32 0).length = true
    ∧ ([] : List Nat).length < NonceSize
    ∧ Decrypt [] (List.replicate 32 0) = Except.error CryptError.noNonce :=
  ⟨by decide, by decide,
    decrypt_short_input (List.replicate 32 0) [] (by decide) (by decide)⟩

/-- C5: every envelope produced by `Encrypt` is exactly
`nonce ++ aeadSeal key nonce plaintext`: its first `NonceSize` (12)
bytes are the freshly generated nonce and the rest is the AEAD output;
`Decrypt` splits any input at exactly byte offset `NonceSize` into
nonce and body before verification. -/
theorem envelope_layout (key src : List Nat) (g : Nat)
    (hk : aesKeyOk key.length = true) :
    (Encrypt src key g).1
      = Except.ok ((RandBytes NonceSize g).1
          ++ aeadSeal key (RandBytes NonceSize g).1 src)
    ∧ ((RandBytes NonceSize g).1).length = NonceSize
    ∧ ((RandBytes NonceSize g).1 ++ aeadSeal key (RandBytes NonceSize g).1 src).take NonceSize
        = (RandBytes NonceSize g).1
    ∧ ((RandBytes NonceSize g).1 ++ aeadSeal key (RandBytes NonceSize g).1 src).drop NonceSize
        = aeadSeal key (RandBytes NonceSize g).1 src
    ∧ ∀ ct, NonceSize ≤ ct.length →
        Decrypt ct key
          = match aeadOpen key (ct.take NonceSize) (ct.drop NonceSize) with
            | some p => Except.ok p
            | none => Except.error CryptError.authFailure := by
  have hn := length_randBytes NonceSize g
  refine ⟨?_, hn, ?_, ?_, ?_⟩
  · unfold Encrypt
    rw [if_pos hk]
  · rw [← hn]
    exact List.take_left _ _
  · rw [← hn]
    exact List.drop_left _ _
  · intro ct hlen
    have hsplit : ct = ct.take NonceSize ++ ct.drop NonceSize :=
      (List.take_append_drop NonceSize ct).symm
    have htn : (ct.take NonceSize).length = NonceSize := by
      rw [List.length_take]
      omega
    have hd := decrypt_split key (ct.take NonceSize) (ct.drop NonceSize) hk htn
    rw [← hsplit] at hd
    exact hd

/-- Witness for C5 at a concrete key, plaintext and generator state. -/
theorem envelope_layout_witness :
    aesKeyOk (List.replicate 32 0).length = true
    ∧ ((Encrypt [104] (List.replicate 32 0) 5).1
        = Except.ok ((RandBytes NonceSize 5).1
            ++ aeadSeal (List.replicate 32 0) (RandBytes NonceSize 5).1 [104])
      ∧ ((RandBytes NonceSize 5).1).length = NonceSize
      ∧ ((RandBytes NonceSize 5).1
          ++ aeadSeal (List.replicate 32 0) (RandBytes NonceSize 5).1 [104]).take NonceSize
          = (RandBytes NonceSize 5).1
      ∧ ((RandBytes NonceSize 5).1
          ++ aeadSeal (List.replicate 32 0) (RandBytes NonceSize 5).1 [104]).drop NonceSize
          = aeadSeal (List.replicate 32 0) (RandBytes NonceSize 5).1 [104]
      ∧ ∀ ct, NonceSize ≤ ct.length →
          Decrypt ct (List.replicate 32 0)
            = match aeadOpen (List.replicate 32 0) (ct.take NonceSize) (ct.drop NonceSize) with
              | some p => Except.ok p
              | none => Except.error CryptError.authFailure) :=
  ⟨by decide, envelope_layout (List.replicate 32 0) [104] 5 (by decide)⟩

/-- C9: the key-size check in `Encrypt` and `Decrypt` accepts keys of
16, 24 or 32 bytes (every AES key size), so 16- and 24-byte keys do not
produce a key-size error; the error occurs exactly when the key length
lies outside that set. -/
theorem aes_key_sizes_accepted (key src ct : List Nat) (g : Nat) :
    (aesKeyOk key.length = true
      ↔ key.length = 16 ∨ key.length = 24 ∨ key.length = 32)
    ∧ ((Encrypt src key g).1 = Except.error (CryptError.keySize key.length)
      ↔ ¬(key.length = 16 ∨ key.length = 24 ∨ key.length = 32))
    ∧ (Decrypt ct key = Except.error (CryptError.keySize key.length)
      ↔ ¬(key.length = 16 ∨ key.length = 24 ∨ key.length = 32)) := by
  have hiff : aesKeyOk key.length = true
      ↔ key.length = 16 ∨ key.length = 24 ∨ key.length = 32 := by
    simp [aesKeyOk, or_assoc]
  have hneg : aesKeyOk key.length = false
      ↔ ¬(key.length = 16 ∨ key.length = 24 ∨ key.length = 32) := by
    rw [← hiff]
    simp
  have hmain := keySize_iff_aux key src ct g
  exact ⟨hiff, hmain.1.trans hneg, hmain.2.trans hneg⟩

/-- C10: in `Decrypt` the key-length check precedes the envelope-length
check, so when the key length is invalid and the input is also shorter
than `NonceSize`, the key-size error is returned rather than
`ErrNoNonce`. -/
theorem key_check_precedes_length_check (key ct : List Nat)
    (hk : aesKeyOk key.length = false) (_hlen : ct.length < NonceSize) :
    Decrypt ct key = Except.error (CryptError.keySize key.length) := by
  unfold Decrypt
  rw [if_neg (by rw [hk]; exact Bool.false_ne_true)]

/-- Witness for C10 at the empty key and the empty input. -/
theorem key_check_precedes_length_check_witness :
    aesKeyOk ([] : List Nat).length = false
    ∧ ([] : List Nat).length < NonceSize
    ∧ Decrypt [] [] = Except.error (CryptError.keySize ([] : List Nat).length) :=
  ⟨by decide, by decide, key_check_precedes_length_check [] [] (by decide) (by decide)⟩

/-- Helper: the modelled 256-bit hash always yields 32 bytes. -/
theorem length_hash256 (msg : List Nat) : (hash256 msg).length = 32 := by
  simp [hash256]

/-- Helper: the modelled HMAC always yields 32 bytes. -/
theorem length_hmac256 (key msg : List Nat) : (hmac256 key msg).length = 32 := by
  simp [hmac256, length_hash256]

/-- Helper: length of a pointwise xor. -/
theorem length_xorBytes (a b : List Nat) :
    (xorBytes a b).length = min a.length b.length := by
  simp [xorBytes]

/-- Helper: the PBKDF2 round accumulator keeps its 32-byte length. -/
theorem length_pbkdf2Rounds (pw : List Nat) (n : Nat) (u t : List Nat)
    (ht : t.length = 32) : (pbkdf2Rounds pw n u t).length = 32 := by
  induction n generalizing u t with
  | zero => exact ht
  | succ n ih =>
    rw [pbkdf2Rounds]
    exact ih _ _ (by rw [length_xorBytes, length_hmac256, ht]; rfl)

/-- Helper: for a 32-byte derived key a single PBKDF2 block is computed, a PRF chain of `iter` applications in total. -/
theorem pbkdf2Key_single_block (pw salt : List Nat) (iter : Nat) :
    pbkdf2Key pw salt iter 32
      = (pbkdf2Rounds pw (iter - 1) (hmac256 pw (salt ++ intBE4 1))
          (hmac256 pw (salt ++ intBE4 1))).take 32 := by
  rw [pbkdf2Key]
  norm_num [List.range_succ]

/-- Helper: `Pbkdf2` always yields a 32-byte key. -/
theorem length_pbkdf2 (pw salt : List Nat) : (Pbkdf2 pw salt).length = 32 := by
  rw [Pbkdf2, pbkdf2Key_single_block, List.length_take,
    length_pbkdf2Rounds pw _ _ _ (length_hmac256 pw (salt ++ intBE4 1))]
  rfl

/-- C6: `Pbkdf2` computes the PBKDF2 construction with exactly 4096
iterations (one initial PRF application plus 4095 chained rounds), the
modelled 256-bit hash as underlying PRF, and a derived key of exactly
32 bytes; the parameters are fixed constants, as the definition takes
only the passphrase and the salt. -/
theorem pbkdf2_parameters (pw salt : List Nat) :
    Pbkdf2 pw salt = pbkdf2Key pw salt 4096 32
    ∧ (Pbkdf2 pw salt).length = 32
    ∧ Pbkdf2 pw salt
        = (pbkdf2Rounds pw 4095 (hmac256 pw (salt ++ intBE4 1))
            (hmac256 pw (salt ++ intBE4 1))).take 32 :=
  ⟨rfl, length_pbkdf2 pw salt, pbkdf2Key_single_block pw salt 4096⟩

/-- C7: `Pbkdf2` is deterministic and total — any two calls on equal
passphrases and salts return the same key, the result is a plain byte
sequence (no error channel in the type), and it is always exactly 32
bytes. -/
theorem pbkdf2_deterministic_total (pw salt pw2 salt2 : List Nat)
    (hpw : pw = pw2) (hsalt : salt = salt2) :
    Pbkdf2 pw salt = Pbkdf2 pw2 salt2 ∧ (Pbkdf2 pw salt).length = 32 := by
  subst hpw
  subst hsalt
  exact ⟨rfl, length_pbkdf2 pw salt⟩

/-- Witness for C7 at concrete passphrase and salt. -/
theorem pbkdf2_deterministic_total_witness :
    ([3] : List Nat) = [3] ∧ ([7] : List Nat) = [7]
    ∧ (Pbkdf2 [3] [7] = Pbkdf2 [3] [7] ∧ (Pbkdf2 [3] [7]).length = 32) :=
  ⟨rfl, rfl, pbkdf2_deterministic_total [3] [7] [3] [7] rfl rfl⟩

/-- C8: for every requested count `n` and every generator state,
`RandBytes n` returns a byte sequence of length exactly `n`. -/
theorem randBytes_length (n g : Nat) : ((RandBytes n g).1).length = n :=
  length_randBytes n g

end Krypt
